import Mathlib

/-!
Shallow embedding of the layer-catalog derivation and tile-URL construction
logic of the GeoHydroAI flood-viewer frontend (`src/App.tsx`, main screen).

JavaScript semantics modelled here:
* JS numbers are modelled as exact rationals (`Option ℚ`, `none` = `NaN`);
  IEEE-754 rounding/overflow is not modelled.
* `Array.prototype.sort` is modelled as a stable binary insertion sort using
  the ECMAScript `SortCompare` rule (a comparator result of `NaN` counts
  as `+0`); for inconsistent comparators ECMAScript leaves the order
  implementation-defined, this is the stable-sort reading.
* `String.prototype.toLowerCase` is modelled ASCII-accurately.
-/

namespace GeoAI

/-- One record of `layers_index.json` (`LayerRec` in `src/App.tsx`).
Optional fields (`dem?`, `hand?`, `flood?`: `string | null | undefined`)
are modelled as `Option String` (`none` = `null`/absent). -/
structure LayerRec where
  category : String
  name : String
  dem : Option String := none
  hand : Option String := none
  flood : Option String := none
  deriving DecidableEq, Repr

/-- JS truthiness of a `string | null | undefined` value:
`null`/`undefined` and the empty string are falsy. -/
def truthy : Option String → Bool
  | none => false
  | some s => s != ""

/-- The set of code points removed by `String.prototype.trim`
(ECMAScript WhiteSpace and LineTerminator). -/
def isJsWhitespace (c : Char) : Bool :=
  c.toNat = 9 || c.toNat = 10 || c.toNat = 11 || c.toNat = 12 || c.toNat = 13 ||
  c.toNat = 32 || c.toNat = 160 || c.toNat = 5760 ||
  (8192 ≤ c.toNat && c.toNat ≤ 8202) ||
  c.toNat = 8232 || c.toNat = 8233 || c.toNat = 8239 || c.toNat = 8287 ||
  c.toNat = 12288 || c.toNat = 65279

/-- `String.prototype.trim` on a character list: strip JS whitespace
from both ends. -/
def jsTrim (cs : List Char) : List Char :=
  ((cs.dropWhile isJsWhitespace).reverse.dropWhile isJsWhitespace).reverse

/-- ASCII model of `String.prototype.toLowerCase` applied per character. -/
def jsToLower (c : Char) : Char :=
  if 65 ≤ c.toNat ∧ c.toNat ≤ 90 then Char.ofNat (c.toNat + 32) else c

/-- `String.prototype.replace(pat, "")` for a one-character pattern:
remove the first occurrence of `t`, if any. -/
def removeFirstChar (t : Char) : List Char → List Char
  | [] => []
  | c :: cs => if c = t then cs else c :: removeFirstChar t cs

def isAsciiDigit (c : Char) : Bool := 48 ≤ c.toNat && c.toNat ≤ 57

def isHexDigitChar (c : Char) : Bool :=
  isAsciiDigit c || (97 ≤ c.toNat && c.toNat ≤ 102) || (65 ≤ c.toNat && c.toNat ≤ 70)

def isOctDigitChar (c : Char) : Bool := 48 ≤ c.toNat && c.toNat ≤ 55

def isBinDigitChar (c : Char) : Bool := c.toNat = 48 || c.toNat = 49

/-- Numeric value of one digit character in a radix up to 16. -/
def digitVal (c : Char) : Nat :=
  if 48 ≤ c.toNat ∧ c.toNat ≤ 57 then c.toNat - 48
  else if 97 ≤ c.toNat ∧ c.toNat ≤ 102 then c.toNat - 87
  else if 65 ≤ c.toNat ∧ c.toNat ≤ 70 then c.toNat - 55
  else 0

/-- Value of a digit string in the given radix. -/
def digitsVal (radix : Nat) (cs : List Char) : Nat :=
  cs.foldl (fun a c => a * radix + digitVal c) 0

/-- Exponent part of a JS decimal literal (`e` / `E` already consumed):
optional sign, then at least one digit, consuming the whole rest. -/
def decExpVal (cs : List Char) : Option Int :=
  match cs with
  | '+' :: ds => if ds ≠ [] ∧ ds.all isAsciiDigit then some (digitsVal 10 ds) else none
  | '-' :: ds => if ds ≠ [] ∧ ds.all isAsciiDigit then some (-(digitsVal 10 ds : Int)) else none
  | ds => if ds ≠ [] ∧ ds.all isAsciiDigit then some (digitsVal 10 ds) else none

/-- Assemble the rational value of a decimal literal from its integer part,
fraction part and exponent. -/
def decValue (ip fp : List Char) (e : Int) : ℚ :=
  let mant : ℚ := ((digitsVal 10 ip * 10 ^ fp.length + digitsVal 10 fp : Nat) : ℚ) / (10 ^ fp.length : Nat)
  if 0 ≤ e then mant * 10 ^ e.toNat else mant / 10 ^ (-e).toNat

/-- An unsigned JS `StrDecimalLiteral` (digits, optional fraction, optional
exponent); must consume the whole input. -/
def decLitVal (cs : List Char) : Option ℚ :=
  let ip := cs.takeWhile isAsciiDigit
  let r1 := cs.dropWhile isAsciiDigit
  match r1 with
  | [] => if ip = [] then none else some (decValue ip [] 0)
  | '.' :: r2 =>
      let fp := r2.takeWhile isAsciiDigit
      let r3 := r2.dropWhile isAsciiDigit
      if ip = [] ∧ fp = [] then none
      else
        match r3 with
        | [] => some (decValue ip fp 0)
        | 'e' :: r4 => (decExpVal r4).map (decValue ip fp)
        | 'E' :: r4 => (decExpVal r4).map (decValue ip fp)
        | _ => none
  | 'e' :: r4 => if ip = [] then none else (decExpVal r4).map (decValue ip [])
  | 'E' :: r4 => if ip = [] then none else (decExpVal r4).map (decValue ip [])
  | _ => none

/-- `Number(s)` on an already-trimmed character list (ECMAScript
`StringNumericLiteral`): empty string is `0`, `0x`/`0o`/`0b` radix literals,
otherwise an optionally signed decimal literal; `none` models `NaN`.
(`Infinity` is accepted by JS but the callers below lowercase their input
first, and `"infinity"` is `NaN`, so it is not modelled.) -/
def jsNumCore : List Char → Option ℚ
  | [] => some 0
  | '0' :: 'x' :: ds => if ds ≠ [] ∧ ds.all isHexDigitChar then some (digitsVal 16 ds) else none
  | '0' :: 'X' :: ds => if ds ≠ [] ∧ ds.all isHexDigitChar then some (digitsVal 16 ds) else none
  | '0' :: 'o' :: ds => if ds ≠ [] ∧ ds.all isOctDigitChar then some (digitsVal 8 ds) else none
  | '0' :: 'O' :: ds => if ds ≠ [] ∧ ds.all isOctDigitChar then some (digitsVal 8 ds) else none
  | '0' :: 'b' :: ds => if ds ≠ [] ∧ ds.all isBinDigitChar then some (digitsVal 2 ds) else none
  | '0' :: 'B' :: ds => if ds ≠ [] ∧ ds.all isBinDigitChar then some (digitsVal 2 ds) else none
  | '+' :: ds => decLitVal ds
  | '-' :: ds => (decLitVal ds).map Neg.neg
  | cs => decLitVal cs

/-- `Number(s)` including the whitespace trimming `Number` itself performs. -/
def jsNumber (cs : List Char) : Option ℚ := jsNumCore (jsTrim cs)

/-- `parseLevel` from `src/App.tsx`:
`Number(String(s).toLowerCase().replace("m", "").trim())`;
`none` models the `NaN` result. -/
def parseLevel (s : String) : Option ℚ :=
  jsNumber (jsTrim (removeFirstChar 'm' (s.data.map jsToLower)))

/-! ### `Array.prototype.sort` -/

/-- Insert `a` into `l`, placing it before the first element `b` with
comparator value `cmp a b ≤ 0`; with the ECMAScript `SortCompare` rule this
realises a stable comparison sort. -/
def jsInsert (cmp : α → α → Int) (a : α) : List α → List α
  | [] => [a]
  | b :: l => if cmp a b ≤ 0 then a :: b :: l else b :: jsInsert cmp a l

/-- Stable insertion-sort model of `Array.prototype.sort(cmp)`. -/
def jsSort (cmp : α → α → Int) : List α → List α
  | [] => []
  | a :: l => jsInsert cmp a (jsSort cmp l)

/-- ECMAScript `SortCompare` of `(a, b) => parseLevel(a) - parseLevel(b)`:
the sign of the difference, with a `NaN` result (either side failing to
parse) treated as `+0`. -/
def levelCmp (a b : String) : Int :=
  match parseLevel a, parseLevel b with
  | some x, some y => if x < y then -1 else if y < x then 1 else 0
  | _, _ => 0

/-- UTF-16 code units of one scalar value (surrogate pair above `0xFFFF`). -/
def utf16Char (c : Char) : List Nat :=
  if c.toNat < 65536 then [c.toNat]
  else [55296 + (c.toNat - 65536) / 1024, 56320 + (c.toNat - 65536) % 1024]

/-- UTF-16 code units of a character list. -/
def utf16 (cs : List Char) : List Nat := cs.flatMap utf16Char

/-- Lexicographic comparison of code-unit sequences. -/
def lexNat : List Nat → List Nat → Int
  | [], [] => 0
  | [], _ :: _ => -1
  | _ :: _, [] => 1
  | a :: as, b :: bs => if a < b then -1 else if b < a then 1 else lexNat as bs

/-- The default `Array.prototype.sort` comparator on strings: lexicographic
comparison of UTF-16 code-unit sequences. -/
def jsStrCmp (a b : String) : Int := lexNat (utf16 a.data) (utf16 b.data)

/-! ### The catalog builder (`useMemo` body in `src/App.tsx`) -/

/-- `Set.prototype.add`: append `a` if absent (JS sets keep insertion
order and `Array.from` reproduces it). -/
def addSet (l : List String) (a : String) : List String :=
  if a ∈ l then l else l ++ [a]

/-- The key string `` `${r.dem}|${r.flood}` `` of `tmpLevel2hand`. -/
def demFloodKey (d f : String) : String := d ++ "|" ++ f

/-- The three accumulators of the catalog loop: `demSet`,
`tmpLevels` (JS `Record<string, Set<Level>>`, absent key = empty) and
`tmpLevel2hand` (JS `Record<string, Set<string>>`). -/
structure BuildState where
  demSet : List String
  tmpLevels : String → List String
  tmpLevel2hand : String → List String

def initState : BuildState := ⟨[], fun _ => [], fun _ => []⟩

/-- Point update of a string-keyed record. -/
def updateFn (f : String → List String) (k : String) (v : List String) : String → List String :=
  fun k' => if k' = k then v else f k'

/-- The first statement of the loop body:
`if (r.category === "dem" && r.name) demSet.add(r.name);`. -/
def stepDem (st : BuildState) (r : LayerRec) : BuildState :=
  if r.category == "dem" && r.name != "" then
    { st with demSet := addSet st.demSet r.name }
  else st

/-- The second statement of the loop body:
`if (r.category === "flood_scenarios" && r.dem && r.flood) {`
`  (tmpLevels[r.dem] ??= new Set()).add(String(r.flood));`
`  const key = \`${r.dem}|${r.flood}\`;`
`  (tmpLevel2hand[key] ??= new Set()).add(r.hand ?? ""); }`. -/
def stepFlood (st : BuildState) (r : LayerRec) : BuildState :=
  if r.category == "flood_scenarios" && truthy r.dem && truthy r.flood then
    let d := r.dem.getD ""
    let f := r.flood.getD ""
    { st with
      tmpLevels := updateFn st.tmpLevels d (addSet (st.tmpLevels d) f),
      tmpLevel2hand :=
        updateFn st.tmpLevel2hand (demFloodKey d f)
          (addSet (st.tmpLevel2hand (demFloodKey d f)) (r.hand.getD "")) }
  else st

/-- One iteration of `for (const r of index)` in the catalog `useMemo`:
the two `if` statements in sequence. -/
def stepRec (st : BuildState) (r : LayerRec) : BuildState :=
  stepFlood (stepDem st r) r

/-- `hands.includes("hand_2000") ? "hand_2000" : (hands[0] ?? "")`. -/
def resolveHand (hands : List String) : String :=
  if hands.contains "hand_2000" then "hand_2000" else hands.headD ""

/-- The derived catalog returned by the `useMemo`: `DEM_LIST`, and
`DEM_LEVELS` / `DEM_LEVEL_TO_HAND` as association lists keyed exactly by
the models iterated over (`for (const d of demList)`), mirroring the JS
objects whose keys are assigned in that loop. -/
structure Catalog where
  DEM_LIST : List String
  DEM_LEVELS : List (String × List String)
  DEM_LEVEL_TO_HAND : List (String × List (String × String))
  deriving DecidableEq, Repr

/-- The catalog builder (`buildCatalog` of the spec; the `useMemo` body of
`src/App.tsx`): one pass over the records filling the accumulators, then
`demList = Array.from(demSet).sort()`, per-model
`levels = Array.from(tmpLevels[d] ?? []).sort((a, b) => parseLevel(a) - parseLevel(b))`
and per-level correction resolution. -/
def buildCatalog (records : List LayerRec) : Catalog :=
  let st := records.foldl stepRec initState
  let demList := jsSort jsStrCmp st.demSet
  let demLevels := demList.map fun d => (d, jsSort levelCmp (st.tmpLevels d))
  let demLevelToHand := demList.map fun d =>
    (d, (jsSort levelCmp (st.tmpLevels d)).map fun l =>
      (l, resolveHand (st.tmpLevel2hand (demFloodKey d l))))
  { DEM_LIST := demList, DEM_LEVELS := demLevels, DEM_LEVEL_TO_HAND := demLevelToHand }

/-! ### Tile-URL construction (`buildDemUrl` / `buildFloodUrl`) -/

/-- `TC_BASE` in production builds (`https://geohydroai.org/tc`); development
builds use the proxy path `/tc`, a configuration switch external to the
resolver. -/
def TC_BASE : String := "https://geohydroai.org/tc"

/-- The characters `encodeURIComponent` leaves unescaped:
`A–Z a–z 0–9 - _ . ! ~ * ' ( )`. -/
def isUnreservedURI (c : Char) : Bool :=
  (65 ≤ c.toNat && c.toNat ≤ 90) || (97 ≤ c.toNat && c.toNat ≤ 122) ||
  (48 ≤ c.toNat && c.toNat ≤ 57) ||
  c.toNat = 45 || c.toNat = 95 || c.toNat = 46 || c.toNat = 33 ||
  c.toNat = 126 || c.toNat = 42 || c.toNat = 39 || c.toNat = 40 || c.toNat = 41

/-- Uppercase hex digit for a value below 16. -/
def hexDigitChar (n : Nat) : Char :=
  if n < 10 then Char.ofNat (48 + n) else Char.ofNat (55 + n)

/-- UTF-8 bytes of one scalar value. -/
def utf8Bytes (c : Char) : List Nat :=
  if c.toNat < 128 then [c.toNat]
  else if c.toNat < 2048 then [192 + c.toNat / 64, 128 + c.toNat % 64]
  else if c.toNat < 65536 then [224 + c.toNat / 4096, 128 + c.toNat / 64 % 64, 128 + c.toNat % 64]
  else [240 + c.toNat / 262144, 128 + c.toNat / 4096 % 64, 128 + c.toNat / 64 % 64, 128 + c.toNat % 64]

/-- `%XX` escape of one byte. -/
def pctEncodeByte (b : Nat) : List Char :=
  ['%', hexDigitChar (b / 16), hexDigitChar (b % 16)]

/-- `encodeURIComponent`: keep unreserved characters, percent-encode the
UTF-8 bytes of every other character. -/
def encodeURIComponent (s : String) : String :=
  String.mk (s.data.flatMap fun c =>
    if isUnreservedURI c then [c] else (utf8Bytes c).flatMap pctEncodeByte)

/-- Decimal digits of a natural number (fuel-based so that the kernel can
evaluate it; `fuel ≥ n` suffices). -/
def natDigitsAux : Nat → Nat → List Char
  | 0, _ => []
  | fuel + 1, n =>
      if n < 10 then [Char.ofNat (48 + n)]
      else natDigitsAux fuel (n / 10) ++ [Char.ofNat (48 + n % 10)]

/-- JS `ToString` of a number, restricted to the integral values used for
stretch ranges. -/
def numToString (n : Int) : String :=
  if n < 0 then String.mk ('-' :: natDigitsAux (n.natAbs + 1) n.natAbs)
  else String.mk (natDigitsAux (n.toNat + 1) n.toNat)

/-- `buildDemUrl` from `src/App.tsx` (the spec's `buildTerrainUrl`). -/
def buildDemUrl (dem : String) (cmap : String) (stretch : Int × Int) : String :=
  TC_BASE ++ "/singleband/dem/" ++ encodeURIComponent dem ++
    "/\x7bz\x7d/\x7bx\x7d/\x7by\x7d.png?colormap=" ++ encodeURIComponent cmap ++
    "&stretch_range=[" ++ numToString stretch.1 ++ "," ++ numToString stretch.2 ++ "]"

/-- `buildFloodUrl` from `src/App.tsx`: composite layer id
`` `${dem}_${hand}_flood_${level}` `` URL-encoded as one path segment,
then either the forced pure-colour query or the caller's colormap. -/
def buildFloodUrl (dem hand level cmap : String) (stretch : Int × Int)
    (pureBlue : Bool) : String :=
  let layer := dem ++ "_" ++ hand ++ "_flood_" ++ level
  let base := TC_BASE ++ "/singleband/flood_scenarios/" ++ encodeURIComponent layer ++
    "/\x7bz\x7d/\x7bx\x7d/\x7by\x7d.png"
  if pureBlue then
    base ++ "?colormap=custom&colors=0000ff&stretch_range=[" ++
      numToString stretch.1 ++ "," ++ numToString stretch.2 ++ "]"
  else
    base ++ "?colormap=" ++ encodeURIComponent cmap ++ "&stretch_range=[" ++
      numToString stretch.1 ++ "," ++ numToString stretch.2 ++ "]"

/-! ### Characterisation of the accumulating loop -/

/-- Guard of the first `if` of the loop: `r.category === "dem" && r.name`. -/
def demGuard (r : LayerRec) : Bool := r.category == "dem" && r.name != ""

/-- Guard of the second `if`:
`r.category === "flood_scenarios" && r.dem && r.flood`. -/
def floodGuard (r : LayerRec) : Bool :=
  r.category == "flood_scenarios" && truthy r.dem && truthy r.flood

/-- The names the loop feeds into `demSet`, in input order. -/
def demNames (records : List LayerRec) : List String :=
  records.filterMap fun r => if demGuard r then some r.name else none

/-- The levels the loop feeds into `tmpLevels[d]`, in input order. -/
def floodsFor (records : List LayerRec) (d : String) : List String :=
  records.filterMap fun r =>
    if floodGuard r && (r.dem.getD "" == d) then some (r.flood.getD "") else none

/-- The correction-dataset candidates the loop feeds into
`tmpLevel2hand[k]`, in input order. -/
def handsFor (records : List LayerRec) (k : String) : List String :=
  records.filterMap fun r =>
    if floodGuard r && (demFloodKey (r.dem.getD "") (r.flood.getD "") == k) then
      some (r.hand.getD "")
    else none

/-- Repeated `Set.prototype.add`. -/
def addAll (init : List String) (xs : List String) : List String := xs.foldl addSet init

/-- The final accumulator state of the loop over the records. -/
def foldState (records : List LayerRec) : BuildState := records.foldl stepRec initState

/-- A record contributes to the catalog iff one of the two loop guards
accepts it. -/
def keepRec (r : LayerRec) : Bool := demGuard r || floodGuard r

/-- The literal tile-placeholder substring. -/
def zxyPat : List Char := ['\x7b', 'z', '\x7d', '/', '\x7b', 'x', '\x7d', '/', '\x7b', 'y', '\x7d']

/-- Number of positions of `s` at which `pat` occurs as a substring. -/
def occCount (pat : List Char) : List Char → Nat
  | [] => 0
  | c :: rest => (if pat.isPrefixOf (c :: rest) then 1 else 0) + occCount pat rest

/-- Example records used for concrete evaluations: a terrain record and a
flood-scenario record for the model `"alos_dem"`. -/
def exDem : LayerRec := { category := "dem", name := "alos_dem" }

/-- A flood-scenario record for model `"alos_dem"` with the given level and
correction dataset. -/
def exFlood (f h : String) : LayerRec :=
  { category := "flood_scenarios", name := "", dem := some "alos_dem",
    hand := some h, flood := some f }

theorem mem_addSet {a x : String} {l : List String} :
    a ∈ addSet l x ↔ a ∈ l ∨ a = x := by
  unfold addSet
  split
  · next hx =>
    constructor
    · exact Or.inl
    · rintro (h | rfl)
      · exact h
      · exact hx
  · simp

theorem mem_addAll {a : String} : ∀ (xs init : List String),
    a ∈ addAll init xs ↔ a ∈ init ∨ a ∈ xs := by
  intro xs
  induction xs with
  | nil => simp [addAll]
  | cons x xs ih =>
    intro init
    show a ∈ addAll (addSet init x) xs ↔ _
    rw [ih, mem_addSet]
    simp [or_assoc]

theorem head?_addAll : ∀ (xs init : List String), init ≠ [] →
    (addAll init xs).head? = init.head? := by
  intro xs
  induction xs with
  | nil => intro init _; rfl
  | cons x xs ih =>
    intro init hne
    show (addAll (addSet init x) xs).head? = _
    have h1 : addSet init x ≠ [] := by
      unfold addSet; split <;> simp_all
    rw [ih _ h1]
    unfold addSet
    rcases init with _ | ⟨i, init⟩
    · exact absurd rfl hne
    · split <;> simp

theorem headD_addAll (xs : List String) : (addAll [] xs).headD "" = xs.headD "" := by
  rcases xs with _ | ⟨x, xs⟩
  · rfl
  · have : addAll [] (x :: xs) = addAll [x] xs := by simp [addAll, addSet]
    rw [this, List.headD_eq_head?, head?_addAll xs [x] (by simp)]
    rfl

theorem nodup_addAll : ∀ (xs init : List String), init.Nodup → (addAll init xs).Nodup := by
  intro xs
  induction xs with
  | nil => intro init h; exact h
  | cons x xs ih =>
    intro init h
    refine ih _ ?_
    unfold addSet
    split
    · exact h
    · next hx => simpa using List.Nodup.append h (by simp) (by simpa using hx)

theorem stepDem_tmpLevels (st : BuildState) (r : LayerRec) :
    (stepDem st r).tmpLevels = st.tmpLevels := by
  unfold stepDem; split <;> rfl

theorem stepDem_tmpLevel2hand (st : BuildState) (r : LayerRec) :
    (stepDem st r).tmpLevel2hand = st.tmpLevel2hand := by
  unfold stepDem; split <;> rfl

theorem stepFlood_demSet (st : BuildState) (r : LayerRec) :
    (stepFlood st r).demSet = st.demSet := by
  unfold stepFlood; split <;> rfl

theorem stepFlood_tmpLevels (st : BuildState) (r : LayerRec) (d : String) :
    (stepFlood st r).tmpLevels d =
      if floodGuard r && (r.dem.getD "" == d) then addSet (st.tmpLevels d) (r.flood.getD "")
      else st.tmpLevels d := by
  unfold stepFlood floodGuard
  by_cases hg : (r.category == "flood_scenarios" && truthy r.dem && truthy r.flood) = true
  · rw [if_pos hg]
    simp only [hg, Bool.true_and]
    show updateFn st.tmpLevels (r.dem.getD "")
        (addSet (st.tmpLevels (r.dem.getD "")) (r.flood.getD "")) d = _
    unfold updateFn
    by_cases hd : d = r.dem.getD ""
    · rw [if_pos hd, if_pos (by rw [hd, beq_self_eq_true])]
      rw [hd]
    · rw [if_neg hd, if_neg (fun hc => hd (beq_iff_eq.mp hc).symm)]
  · rw [if_neg hg,
      if_neg (fun hc => hg ((Bool.and_eq_true _ _).mp hc).1)]

theorem stepFlood_tmpLevel2hand (st : BuildState) (r : LayerRec) (k : String) :
    (stepFlood st r).tmpLevel2hand k =
      if floodGuard r && (demFloodKey (r.dem.getD "") (r.flood.getD "") == k) then
        addSet (st.tmpLevel2hand k) (r.hand.getD "")
      else st.tmpLevel2hand k := by
  unfold stepFlood floodGuard
  by_cases hg : (r.category == "flood_scenarios" && truthy r.dem && truthy r.flood) = true
  · rw [if_pos hg]
    simp only [hg, Bool.true_and]
    show updateFn st.tmpLevel2hand (demFloodKey (r.dem.getD "") (r.flood.getD ""))
        (addSet (st.tmpLevel2hand (demFloodKey (r.dem.getD "") (r.flood.getD "")))
          (r.hand.getD "")) k = _
    unfold updateFn
    by_cases hk : k = demFloodKey (r.dem.getD "") (r.flood.getD "")
    · rw [if_pos hk, if_pos (by rw [hk, beq_self_eq_true])]
      rw [hk]
    · rw [if_neg hk, if_neg (fun hc => hk (beq_iff_eq.mp hc).symm)]
  · rw [if_neg hg,
      if_neg (fun hc => hg ((Bool.and_eq_true _ _).mp hc).1)]

theorem stepRec_demSet (st : BuildState) (r : LayerRec) :
    (stepRec st r).demSet = if demGuard r then addSet st.demSet r.name else st.demSet := by
  show (stepFlood (stepDem st r) r).demSet = _
  rw [stepFlood_demSet]
  unfold stepDem demGuard
  by_cases hg : (r.category == "dem" && r.name != "") = true
  · rw [if_pos hg, if_pos hg]
  · rw [if_neg hg, if_neg hg]

theorem stepRec_tmpLevels (st : BuildState) (r : LayerRec) (d : String) :
    (stepRec st r).tmpLevels d =
      if floodGuard r && (r.dem.getD "" == d) then addSet (st.tmpLevels d) (r.flood.getD "")
      else st.tmpLevels d := by
  show (stepFlood (stepDem st r) r).tmpLevels d = _
  rw [stepFlood_tmpLevels, stepDem_tmpLevels]

theorem stepRec_tmpLevel2hand (st : BuildState) (r : LayerRec) (k : String) :
    (stepRec st r).tmpLevel2hand k =
      if floodGuard r && (demFloodKey (r.dem.getD "") (r.flood.getD "") == k) then
        addSet (st.tmpLevel2hand k) (r.hand.getD "")
      else st.tmpLevel2hand k := by
  show (stepFlood (stepDem st r) r).tmpLevel2hand k = _
  rw [stepFlood_tmpLevel2hand, stepDem_tmpLevel2hand]

theorem foldl_stepRec_demSet : ∀ (records : List LayerRec) (st : BuildState),
    (records.foldl stepRec st).demSet = addAll st.demSet (demNames records) := by
  intro records
  induction records with
  | nil => intro st; rfl
  | cons r rs ih =>
    intro st
    show (rs.foldl stepRec (stepRec st r)).demSet = _
    rw [ih]
    unfold demNames
    rw [List.filterMap_cons]
    by_cases hg : demGuard r = true
    · rw [if_pos hg]
      show _ = addAll (addSet st.demSet r.name) _
      rw [stepRec_demSet, if_pos hg]
    · rw [if_neg hg, stepRec_demSet, if_neg hg]

theorem foldl_stepRec_tmpLevels : ∀ (records : List LayerRec) (st : BuildState) (d : String),
    (records.foldl stepRec st).tmpLevels d = addAll (st.tmpLevels d) (floodsFor records d) := by
  intro records
  induction records with
  | nil => intro st d; rfl
  | cons r rs ih =>
    intro st d
    show (rs.foldl stepRec (stepRec st r)).tmpLevels d = _
    rw [ih]
    unfold floodsFor
    rw [List.filterMap_cons]
    by_cases hg : (floodGuard r && (r.dem.getD "" == d)) = true
    · rw [if_pos hg]
      show _ = addAll (addSet (st.tmpLevels d) (r.flood.getD "")) _
      rw [stepRec_tmpLevels, if_pos hg]
    · rw [if_neg hg, stepRec_tmpLevels, if_neg hg]

theorem foldl_stepRec_tmpLevel2hand : ∀ (records : List LayerRec) (st : BuildState) (k : String),
    (records.foldl stepRec st).tmpLevel2hand k =
      addAll (st.tmpLevel2hand k) (handsFor records k) := by
  intro records
  induction records with
  | nil => intro st k; rfl
  | cons r rs ih =>
    intro st k
    show (rs.foldl stepRec (stepRec st r)).tmpLevel2hand k = _
    rw [ih]
    unfold handsFor
    rw [List.filterMap_cons]
    by_cases hg : (floodGuard r && (demFloodKey (r.dem.getD "") (r.flood.getD "") == k)) = true
    · rw [if_pos hg]
      show _ = addAll (addSet (st.tmpLevel2hand k) (r.hand.getD "")) _
      rw [stepRec_tmpLevel2hand, if_pos hg]
    · rw [if_neg hg, stepRec_tmpLevel2hand, if_neg hg]

/-! ### Generic facts about the sort model -/

theorem jsInsert_perm (cmp : α → α → Int) (a : α) :
    ∀ l : List α, List.Perm (jsInsert cmp a l) (a :: l) := by
  intro l
  induction l with
  | nil => rfl
  | cons b l ih =>
    rw [jsInsert]
    split
    · rfl
    · exact (ih.cons b).trans (List.Perm.swap a b l)

theorem jsSort_perm (cmp : α → α → Int) : ∀ l : List α, List.Perm (jsSort cmp l) l := by
  intro l
  induction l with
  | nil => rfl
  | cons a l ih => exact (jsInsert_perm cmp a (jsSort cmp l)).trans (ih.cons a)

theorem jsSort_mem (cmp : α → α → Int) (a : α) (l : List α) :
    a ∈ jsSort cmp l ↔ a ∈ l :=
  (jsSort_perm cmp l).mem_iff

theorem jsSort_nodup (cmp : α → α → Int) {l : List α} (h : l.Nodup) :
    (jsSort cmp l).Nodup :=
  (jsSort_perm cmp l).nodup_iff.mpr h

theorem chain'_jsInsert (cmp : α → α → Int)
    (hskew : ∀ a b, 0 < cmp a b → cmp b a ≤ 0) (a : α) :
    ∀ l : List α, (l.Chain' fun x y => cmp x y ≤ 0) →
      (jsInsert cmp a l).Chain' fun x y => cmp x y ≤ 0 := by
  intro l
  induction l with
  | nil => intro _; simp [jsInsert]
  | cons b l ih =>
    intro h
    rw [jsInsert]
    by_cases hab : cmp a b ≤ 0
    · rw [if_pos hab, List.chain'_cons]
      exact ⟨hab, h⟩
    · rw [if_neg hab]
      have hba : cmp b a ≤ 0 := hskew a b (by omega)
      have hi := ih h.tail
      rcases l with _ | ⟨c, l'⟩
      · simpa [jsInsert, List.chain'_cons] using hba
      · rw [jsInsert] at hi ⊢
        by_cases hac : cmp a c ≤ 0
        · rw [if_pos hac] at hi ⊢
          rw [List.chain'_cons]
          exact ⟨hba, hi⟩
        · rw [if_neg hac] at hi ⊢
          rw [List.chain'_cons]
          exact ⟨(List.chain'_cons.mp h).1, hi⟩

theorem chain'_jsSort (cmp : α → α → Int)
    (hskew : ∀ a b, 0 < cmp a b → cmp b a ≤ 0) :
    ∀ l : List α, (jsSort cmp l).Chain' fun x y => cmp x y ≤ 0 := by
  intro l
  induction l with
  | nil => simp [jsSort]
  | cons a l ih => exact chain'_jsInsert cmp hskew a _ ih

/-- An element whose comparator value against everything is zero is placed
at the head by `jsInsert` — the stable sort never moves it past anything. -/
theorem jsSort_cons_of_ties (cmp : α → α → Int) (a : α)
    (hties : ∀ b, cmp a b = 0) (l : List α) :
    jsSort cmp (a :: l) = a :: jsSort cmp l := by
  show jsInsert cmp a (jsSort cmp l) = _
  rcases h : jsSort cmp l with _ | ⟨b, t⟩
  · rfl
  · rw [jsInsert, if_pos (by rw [hties b])]

/-! ### The string comparator of the default sort -/

theorem lexNat_swap : ∀ a b : List Nat, lexNat b a = -lexNat a b := by
  intro a
  induction a with
  | nil => intro b; cases b <;> simp [lexNat]
  | cons x as ih =>
    intro b
    cases b with
    | nil => simp [lexNat]
    | cons y bs =>
      rw [lexNat, lexNat]
      by_cases h1 : x < y
      · rw [if_pos h1, if_neg (by omega), if_pos h1]
        rfl
      · by_cases h2 : y < x
        · rw [if_pos h2, if_neg (by omega), if_pos h2]
        · rw [if_neg h1, if_neg h2, if_neg h2, if_neg h1]
          exact ih bs

theorem lexNat_eq_zero_iff : ∀ a b : List Nat, lexNat a b = 0 ↔ a = b := by
  intro a
  induction a with
  | nil => intro b; cases b <;> simp [lexNat]
  | cons x as ih =>
    intro b
    cases b with
    | nil => simp [lexNat]
    | cons y bs =>
      rw [lexNat]
      by_cases h1 : x < y
      · rw [if_pos h1]
        constructor
        · intro h; exact absurd h (by omega)
        · intro h; injection h with hx _; omega
      · by_cases h2 : y < x
        · rw [if_neg h1, if_pos h2]
          constructor
          · intro h; exact absurd h (by omega)
          · intro h; injection h with hx _; omega
        · rw [if_neg h1, if_neg h2, ih bs]
          have hxy : x = y := by omega
          subst hxy
          simp

theorem lexNat_le_trans : ∀ a b c : List Nat,
    lexNat a b ≤ 0 → lexNat b c ≤ 0 → lexNat a c ≤ 0 := by
  intro a
  induction a with
  | nil =>
    intro b c _ _
    cases c <;> simp [lexNat]
  | cons x as ih =>
    intro b c h1 h2
    cases b with
    | nil => simp [lexNat] at h1
    | cons y bs =>
      cases c with
      | nil => simp [lexNat] at h2
      | cons z cs =>
        rw [lexNat] at h1 h2 ⊢
        by_cases hxy : x < y
        · have hyz : ¬ z < y := by
            by_contra hzy
            rw [if_neg (by omega), if_pos hzy] at h2
            omega
          rw [if_pos (by omega)]
          omega
        · by_cases hyx : y < x
          · rw [if_neg hxy, if_pos hyx] at h1
            omega
          · have hxy' : x = y := by omega
            subst hxy'
            rw [if_neg hxy, if_neg hyx] at h1
            by_cases hxz : x < z
            · rw [if_pos hxz]; omega
            · by_cases hzx : z < x
              · rw [if_neg hxz, if_pos hzx] at h2
                omega
              · rw [if_neg hxz, if_neg hzx] at h2 ⊢
                exact ih bs cs h1 h2

/-- Unicode scalar values avoid the surrogate range. -/
theorem char_scalar_bounds (c : Char) :
    c.toNat < 55296 ∨ (57343 < c.toNat ∧ c.toNat < 1114112) := c.valid

theorem utf16Char_append_inj {c d : Char} {u v : List Nat}
    (h : utf16Char c ++ u = utf16Char d ++ v) : c = d ∧ u = v := by
  have hcb := char_scalar_bounds c
  have hdb := char_scalar_bounds d
  have toNat_inj : c.toNat = d.toNat → c = d := fun hn =>
    Char.ext (UInt32.toNat.inj hn)
  unfold utf16Char at h
  by_cases hc : c.toNat < 65536 <;> by_cases hd : d.toNat < 65536
  · rw [if_pos hc, if_pos hd] at h
    injection h with h1 h2
    exact ⟨toNat_inj h1, h2⟩
  · rw [if_pos hc, if_neg hd] at h
    injection h with h1 _
    have : (d.toNat - 65536) / 1024 ≤ 1023 := by omega
    omega
  · rw [if_neg hc, if_pos hd] at h
    injection h with h1 _
    have : (c.toNat - 65536) / 1024 ≤ 1023 := by omega
    omega
  · rw [if_neg hc, if_neg hd] at h
    injection h with h1 h
    injection h with h2 h3
    refine ⟨toNat_inj ?_, h3⟩
    have hc' := Nat.div_add_mod (c.toNat - 65536) 1024
    have hd' := Nat.div_add_mod (d.toNat - 65536) 1024
    omega

theorem utf16Char_ne_nil (c : Char) : utf16Char c ≠ [] := by
  unfold utf16Char
  split <;> simp

theorem utf16_inj : ∀ cs ds : List Char, utf16 cs = utf16 ds → cs = ds := by
  intro cs
  induction cs with
  | nil =>
    intro ds h
    cases ds with
    | nil => rfl
    | cons d ds =>
      exfalso
      simp only [utf16, List.flatMap_nil, List.flatMap_cons] at h
      exact utf16Char_ne_nil d (List.append_eq_nil.mp h.symm).1
  | cons c cs ih =>
    intro ds h
    cases ds with
    | nil =>
      exfalso
      simp only [utf16, List.flatMap_nil, List.flatMap_cons] at h
      exact utf16Char_ne_nil c (List.append_eq_nil.mp h).1
    | cons d ds =>
      simp only [utf16, List.flatMap_cons] at h
      obtain ⟨hcd, htail⟩ := utf16Char_append_inj h
      rw [hcd, ih ds htail]

theorem jsStrCmp_swap (a b : String) : jsStrCmp b a = -jsStrCmp a b :=
  lexNat_swap _ _

theorem jsStrCmp_skew (a b : String) (h : 0 < jsStrCmp a b) : jsStrCmp b a ≤ 0 := by
  rw [jsStrCmp_swap]
  omega

theorem jsStrCmp_le_trans {a b c : String}
    (h1 : jsStrCmp a b ≤ 0) (h2 : jsStrCmp b c ≤ 0) : jsStrCmp a c ≤ 0 :=
  lexNat_le_trans _ _ _ h1 h2

theorem jsStrCmp_antisymm {a b : String}
    (h1 : jsStrCmp a b ≤ 0) (h2 : jsStrCmp b a ≤ 0) : a = b := by
  rw [jsStrCmp_swap] at h2
  have h0 : jsStrCmp a b = 0 := by omega
  have := (lexNat_eq_zero_iff _ _).mp h0
  have hdata := utf16_inj a.data b.data this
  cases a
  cases b
  exact congrArg String.mk hdata

instance : IsTrans String fun a b => jsStrCmp a b ≤ 0 :=
  ⟨fun _ _ _ => jsStrCmp_le_trans⟩

instance : IsAntisymm String fun a b => jsStrCmp a b ≤ 0 :=
  ⟨fun _ _ => jsStrCmp_antisymm⟩

/-! ### The level comparator -/

theorem levelCmp_skew (a b : String) (h : 0 < levelCmp a b) : levelCmp b a ≤ 0 := by
  unfold levelCmp at h ⊢
  rcases ha : parseLevel a with _ | x <;> rcases hb : parseLevel b with _ | y <;>
    rw [ha, hb] at h <;> simp at h ⊢
  rcases lt_trichotomy x y with hlt | heq | hgt
  · rw [if_pos hlt] at h; omega
  · rw [if_neg (by simp [heq]), if_neg (by simp [heq])] at h; omega
  · rw [if_pos hgt]; omega

theorem levelCmp_ties_of_none {a : String} (ha : parseLevel a = none) (b : String) :
    levelCmp a b = 0 ∧ levelCmp b a = 0 := by
  unfold levelCmp
  rcases hb : parseLevel b with _ | y <;> rw [ha] <;> simp

/-! ### Association-list lookup over `map` -/

theorem lookup_map_self {β : Type} (f : String → β) :
    ∀ (L : List String) (m : String), m ∈ L →
      List.lookup m (L.map fun d => (d, f d)) = some (f m) := by
  intro L
  induction L with
  | nil => intro m hm; simp at hm
  | cons d L ih =>
    intro m hm
    by_cases hmd : m = d
    · subst hmd
      simp [List.lookup_cons]
    · rw [List.map_cons, List.lookup_cons]
      have hbeq : (m == d) = false := by simp [hmd]
      rw [hbeq]
      exact ih m (by rcases List.mem_cons.mp hm with h | h; exact absurd h hmd; exact h)

theorem lookup_map_eq_none {β : Type} (f : String → β) :
    ∀ (L : List String) (m : String), m ∉ L →
      List.lookup m (L.map fun d => (d, f d)) = none := by
  intro L
  induction L with
  | nil => intro m _; rfl
  | cons d L ih =>
    intro m hm
    rw [List.map_cons, List.lookup_cons]
    have hbeq : (m == d) = false := by
      simp only [beq_eq_false_iff_ne, ne_eq]
      rintro rfl
      exact hm (List.mem_cons_self _ _)
    rw [hbeq]
    exact ih m fun h => hm (List.mem_cons_of_mem _ h)

/-! ### Records ignored by the loop -/

theorem stepRec_skip {r : LayerRec} (h : keepRec r = false) (st : BuildState) :
    stepRec st r = st := by
  unfold keepRec at h
  rw [Bool.or_eq_false_iff] at h
  unfold stepRec stepFlood stepDem demGuard floodGuard at *
  rw [if_neg (by rw [h.2]; exact Bool.false_ne_true), if_neg (by rw [h.1]; exact Bool.false_ne_true)]

theorem foldl_stepRec_filter : ∀ (records : List LayerRec) (st : BuildState),
    (records.filter keepRec).foldl stepRec st = records.foldl stepRec st := by
  intro records
  induction records with
  | nil => intro st; rfl
  | cons r rs ih =>
    intro st
    rw [List.foldl_cons, List.filter_cons]
    by_cases h : keepRec r = true
    · rw [if_pos h, List.foldl_cons, ih]
    · rw [if_neg h, ih, stepRec_skip (Bool.not_eq_true _ ▸ Bool.of_not_eq_true h)]

/-! ### The correction-dataset resolution -/

theorem resolveHand_addAll (hs : List String) :
    resolveHand (addAll [] hs) =
      if "hand_2000" ∈ hs then "hand_2000" else hs.headD "" := by
  unfold resolveHand
  have hmem : "hand_2000" ∈ addAll [] hs ↔ "hand_2000" ∈ hs := by
    rw [mem_addAll]; simp
  by_cases h : "hand_2000" ∈ hs
  · rw [if_pos h, if_pos (List.elem_eq_true_of_mem (hmem.mpr h))]
  · rw [if_neg h,
      if_neg (fun hc => h (hmem.mp (List.mem_of_elem_eq_true hc))),
      headD_addAll]

/-! ### Character-level facts about the URL builders -/

theorem utf8Bytes_lt (c : Char) : ∀ b ∈ utf8Bytes c, b < 256 := by
  have hv := char_scalar_bounds c
  intro b hb
  unfold utf8Bytes at hb
  split_ifs at hb with h1 h2 h3 <;> simp at hb <;> omega

theorem mem_encode_chars {s : String} {c' : Char}
    (h : c' ∈ (encodeURIComponent s).data) :
    isUnreservedURI c' = true ∨ c' = '%' ∨ ∃ k, k < 16 ∧ c' = hexDigitChar k := by
  have h' : c' ∈ s.data.flatMap fun c =>
      if isUnreservedURI c then [c] else (utf8Bytes c).flatMap pctEncodeByte := h
  obtain ⟨c, _, hc⟩ := List.mem_flatMap.mp h'
  by_cases hu : isUnreservedURI c
  · rw [if_pos hu] at hc
    simp at hc
    subst hc
    exact Or.inl hu
  · rw [if_neg hu] at hc
    obtain ⟨b, hbmem, hcb⟩ := List.mem_flatMap.mp hc
    have hblt := utf8Bytes_lt c b hbmem
    unfold pctEncodeByte at hcb
    simp at hcb
    rcases hcb with rfl | rfl | rfl
    · exact Or.inr (Or.inl rfl)
    · exact Or.inr (Or.inr ⟨b / 16, by omega, rfl⟩)
    · exact Or.inr (Or.inr ⟨b % 16, by omega, rfl⟩)

theorem encode_no_brace {s : String} : ∀ c' ∈ (encodeURIComponent s).data, c' ≠ '\x7b' := by
  intro c' hmem
  rcases mem_encode_chars hmem with hu | rfl | ⟨k, hk, rfl⟩
  · rintro rfl
    exact absurd hu (by decide)
  · decide
  · interval_cases k <;> decide

theorem encode_single_segment {s : String} :
    ∀ c' ∈ (encodeURIComponent s).data, c' ≠ '/' ∧ c' ≠ '?' ∧ c' ≠ '&' := by
  intro c' hmem
  rcases mem_encode_chars hmem with hu | rfl | ⟨k, hk, rfl⟩
  · refine ⟨?_, ?_, ?_⟩ <;> rintro rfl <;> exact absurd hu (by decide)
  · exact ⟨by decide, by decide, by decide⟩
  · interval_cases k <;> exact ⟨by decide, by decide, by decide⟩

theorem natDigitsAux_digits : ∀ (fuel n : Nat), ∀ c ∈ natDigitsAux fuel n,
    ∃ k, k ≤ 9 ∧ c = Char.ofNat (48 + k) := by
  intro fuel
  induction fuel with
  | zero => intro n c hc; simp [natDigitsAux] at hc
  | succ fuel ih =>
    intro n c hc
    rw [natDigitsAux] at hc
    split_ifs at hc with h
    · simp at hc
      exact ⟨n, by omega, hc⟩
    · rcases List.mem_append.mp hc with hc | hc
      · exact ih _ c hc
      · simp at hc
        exact ⟨n % 10, by omega, hc⟩

theorem numToString_no_brace (n : Int) : ∀ c ∈ (numToString n).data, c ≠ '\x7b' := by
  intro c hc
  unfold numToString at hc
  split_ifs at hc with h
  · rcases List.mem_cons.mp hc with rfl | hc
    · decide
    · obtain ⟨k, hk, rfl⟩ := natDigitsAux_digits _ _ c hc
      interval_cases k <;> decide
  · obtain ⟨k, hk, rfl⟩ := natDigitsAux_digits _ _ c hc
    interval_cases k <;> decide

/-! ### Counting occurrences of the tile placeholder -/

theorem isPrefixOf_self_append : ∀ l r : List Char, l.isPrefixOf (l ++ r) = true := by
  intro l
  induction l with
  | nil => intro r; exact List.isPrefixOf_nil_left
  | cons c l ih =>
    intro r
    show (c == c && l.isPrefixOf (l ++ r)) = true
    rw [beq_self_eq_true, ih, Bool.and_self]

theorem occCount_append_of_no_start (pat : List Char) :
    ∀ (a s : List Char), (∀ i, i < a.length → pat.isPrefixOf (a.drop i ++ s) = false) →
      occCount pat (a ++ s) = occCount pat s := by
  intro a
  induction a with
  | nil => intro s _; rfl
  | cons c a' ih =>
    intro s h
    show (if pat.isPrefixOf (c :: (a' ++ s)) = true then 1 else 0) + occCount pat (a' ++ s)
        = occCount pat s
    have h0 : pat.isPrefixOf (c :: (a' ++ s)) = false := by
      have := h 0 (by simp)
      simpa using this
    rw [h0]
    simp only [Bool.false_eq_true, if_false, Nat.zero_add]
    exact ih s fun i hi => by
      have := h (i + 1) (by simp; omega)
      simpa using this

theorem occCount_braceFree {s : List Char} (hs : ∀ c ∈ s, c ≠ '\x7b') :
    occCount zxyPat s = 0 := by
  induction s with
  | nil => rfl
  | cons c t ih =>
    show (if zxyPat.isPrefixOf (c :: t) = true then 1 else 0) + occCount zxyPat t = 0
    have hc : ('\x7b' == c) = false :=
      beq_eq_false_iff_ne.mpr fun h => hs c (List.mem_cons_self _ _) h.symm
    have hp : zxyPat.isPrefixOf (c :: t) = false := by
      show ('\x7b' == c && List.isPrefixOf ['z', '\x7d', '/', '\x7b', 'x', '\x7d', '/', '\x7b', 'y', '\x7d'] t) = false
      rw [hc, Bool.false_and]
    rw [hp]
    simp only [Bool.false_eq_true, if_false, Nat.zero_add]
    exact ih fun c' hc' => hs c' (List.mem_cons_of_mem _ hc')

theorem occCount_pat_append {r : List Char} (hr : ∀ c ∈ r, c ≠ '\x7b') :
    occCount zxyPat (zxyPat ++ r) = 1 := by
  have htail : occCount zxyPat
      (['z', '\x7d', '/', '\x7b', 'x', '\x7d', '/', '\x7b', 'y', '\x7d'] ++ r) = occCount zxyPat r := by
    apply occCount_append_of_no_start
    intro i hi
    simp only [List.length_cons, List.length_nil] at hi
    interval_cases i <;> rfl
  show (if zxyPat.isPrefixOf (zxyPat ++ r) = true then 1 else 0) +
      occCount zxyPat (['z', '\x7d', '/', '\x7b', 'x', '\x7d', '/', '\x7b', 'y', '\x7d'] ++ r) = 1
  rw [isPrefixOf_self_append, htail, occCount_braceFree hr]
  rfl

/-! ### Closed forms of the three catalog projections -/

theorem buildCatalog_DEM_LIST (records : List LayerRec) :
    (buildCatalog records).DEM_LIST = jsSort jsStrCmp (addAll [] (demNames records)) := by
  simp only [buildCatalog]
  rw [foldl_stepRec_demSet]
  rfl

theorem buildCatalog_DEM_LEVELS (records : List LayerRec) :
    (buildCatalog records).DEM_LEVELS =
      (jsSort jsStrCmp (addAll [] (demNames records))).map fun d =>
        (d, jsSort levelCmp (addAll [] (floodsFor records d))) := by
  simp only [buildCatalog, foldl_stepRec_demSet, foldl_stepRec_tmpLevels]
  rfl

theorem buildCatalog_DEM_LEVEL_TO_HAND (records : List LayerRec) :
    (buildCatalog records).DEM_LEVEL_TO_HAND =
      (jsSort jsStrCmp (addAll [] (demNames records))).map fun d =>
        (d, (jsSort levelCmp (addAll [] (floodsFor records d))).map fun l =>
          (l, resolveHand (addAll [] (handsFor records (demFloodKey d l))))) := by
  simp only [buildCatalog, foldl_stepRec_demSet, foldl_stepRec_tmpLevels,
    foldl_stepRec_tmpLevel2hand]
  rfl

/-! ## The claims -/

/-- C8: every model in `DEM_LIST` has an entry (possibly the empty list) in
`DEM_LEVELS`, and every (model, level) pair present in `DEM_LEVELS` has
exactly one resolved value in `DEM_LEVEL_TO_HAND`: the per-model entry
exists, its keys are exactly the model's levels (which are duplicate-free),
and the resolved value may be the empty string but is never absent. -/
theorem C8_catalog_invariant (records : List LayerRec) (m : String)
    (hm : m ∈ (buildCatalog records).DEM_LIST) :
    ∃ lvls, (buildCatalog records).DEM_LEVELS.lookup m = some lvls ∧
      ∃ inner, (buildCatalog records).DEM_LEVEL_TO_HAND.lookup m = some inner ∧
        inner.map Prod.fst = lvls ∧ lvls.Nodup := by
  rw [buildCatalog_DEM_LIST] at hm
  rw [buildCatalog_DEM_LEVELS, buildCatalog_DEM_LEVEL_TO_HAND]
  refine ⟨_, lookup_map_self _ _ _ hm, _, lookup_map_self _ _ _ hm, ?_, ?_⟩
  · rw [List.map_map]
    exact List.map_id _
  · exact jsSort_nodup _ (nodup_addAll _ _ List.nodup_nil)

/-- C8 witness: the invariant at a concrete record list. -/
theorem C8_catalog_invariant_witness :
    ∃ lvls, (buildCatalog [exDem, exFlood "5m" "hand_2000"]).DEM_LEVELS.lookup "alos_dem"
        = some lvls ∧
      ∃ inner, (buildCatalog [exDem, exFlood "5m" "hand_2000"]).DEM_LEVEL_TO_HAND.lookup "alos_dem"
          = some inner ∧ inner.map Prod.fst = lvls ∧ lvls.Nodup :=
  C8_catalog_invariant [exDem, exFlood "5m" "hand_2000"] "alos_dem"
    (by with_unfolding_all decide)

/-- C9: `buildCatalog` is total (it is a Lean function, hence never
throws), and records rejected by both loop guards — unrecognized category,
absent or empty optional fields — are silently skipped: filtering them out
first yields the identical catalog. -/
theorem C9_unrecognized_records_skipped (records : List LayerRec) :
    buildCatalog records = buildCatalog (records.filter keepRec) := by
  unfold buildCatalog
  rw [foldl_stepRec_filter]

/-- C10: the key set of `DEM_LEVELS` (and of `DEM_LEVEL_TO_HAND`) is exactly
`DEM_LIST`; a flood-scenario record whose base model has no terrain record
contributes nothing to the published maps — lookups outside `DEM_LIST` are
absent. -/
theorem C10_keys_are_model_list (records : List LayerRec) :
    (buildCatalog records).DEM_LEVELS.map Prod.fst = (buildCatalog records).DEM_LIST ∧
    (buildCatalog records).DEM_LEVEL_TO_HAND.map Prod.fst = (buildCatalog records).DEM_LIST ∧
    ∀ m, m ∉ (buildCatalog records).DEM_LIST →
      (buildCatalog records).DEM_LEVELS.lookup m = none ∧
      (buildCatalog records).DEM_LEVEL_TO_HAND.lookup m = none := by
  rw [buildCatalog_DEM_LIST, buildCatalog_DEM_LEVELS, buildCatalog_DEM_LEVEL_TO_HAND]
  refine ⟨?_, ?_, ?_⟩
  · rw [List.map_map]
    exact List.map_id _
  · rw [List.map_map]
    exact List.map_id _
  · intro m hm
    exact ⟨lookup_map_eq_none _ _ _ hm, lookup_map_eq_none _ _ _ hm⟩

/-- C10 witness: a flood record referring to a model with no terrain record
is dropped — its model key resolves to nothing. -/
theorem C10_keys_are_model_list_witness :
    "alos_dem" ∉ (buildCatalog [exFlood "5m" "hand_2000"]).DEM_LIST ∧
    (buildCatalog [exFlood "5m" "hand_2000"]).DEM_LEVELS.lookup "alos_dem" = none ∧
    (buildCatalog [exFlood "5m" "hand_2000"]).DEM_LEVEL_TO_HAND.lookup "alos_dem" = none :=
  ⟨by with_unfolding_all decide,
    (C10_keys_are_model_list [exFlood "5m" "hand_2000"]).2.2 "alos_dem"
      (by with_unfolding_all decide)⟩

/-- C1: for every (model, level) pair present in the catalog, the resolved
correction dataset is `"hand_2000"` whenever that string is among the
candidates the loop collected for the pair's key (for any input order,
since the record list is universally quantified), and otherwise it is the
first candidate encountered in input order (`headD ""` also covers the
empty candidate set, yielding the empty string). -/
theorem C1_correction_tiebreak (records : List LayerRec) (m l : String)
    (lvls : List String) (hml : (m, lvls) ∈ (buildCatalog records).DEM_LEVELS)
    (hl : l ∈ lvls) :
    ∃ inner, (buildCatalog records).DEM_LEVEL_TO_HAND.lookup m = some inner ∧
      inner.lookup l = some
        (if "hand_2000" ∈ handsFor records (demFloodKey m l) then "hand_2000"
         else (handsFor records (demFloodKey m l)).headD "") := by
  rw [buildCatalog_DEM_LEVELS] at hml
  rw [buildCatalog_DEM_LEVEL_TO_HAND]
  obtain ⟨d, hd, hpair⟩ := List.mem_map.mp hml
  rw [Prod.mk.injEq] at hpair
  obtain ⟨rfl, rfl⟩ := hpair
  refine ⟨_, lookup_map_self _ _ _ hd, ?_⟩
  rw [lookup_map_self _ _ _ hl, resolveHand_addAll]

/-- C1 witness: with two candidates for `("alos_dem", "5m")` inserted in the
order `hand_500`, `hand_2000`, the pair still resolves to `"hand_2000"`. -/
theorem C1_correction_tiebreak_witness :
    ∃ inner,
      (buildCatalog [exDem, exFlood "5m" "hand_500", exFlood "5m" "hand_2000"]).DEM_LEVEL_TO_HAND.lookup "alos_dem" = some inner ∧
      inner.lookup "5m" = some
        (if "hand_2000" ∈ handsFor [exDem, exFlood "5m" "hand_500", exFlood "5m" "hand_2000"]
            (demFloodKey "alos_dem" "5m") then "hand_2000"
         else (handsFor [exDem, exFlood "5m" "hand_500", exFlood "5m" "hand_2000"]
            (demFloodKey "alos_dem" "5m")).headD "") :=
  C1_correction_tiebreak [exDem, exFlood "5m" "hand_500", exFlood "5m" "hand_2000"]
    "alos_dem" "5m" ["5m"] (by with_unfolding_all decide) (by decide)

/-- C2 counterexample: with levels `"5m"` and `"05m"` (distinct strings,
equal numeric parse 5) the published level list for `"alos_dem"` is
`["5m", "05m"]`, whose single adjacent pair is not strictly ascending
through the numeric parse — refuting C2 as stated at this input. -/
theorem C2_strictly_ascending_cex :
    (buildCatalog [exDem, exFlood "5m" "hand_2000", exFlood "05m" "hand_2000"]).DEM_LEVELS
      = [("alos_dem", ["5m", "05m"])] ∧
    parseLevel "5m" = some 5 ∧ parseLevel "05m" = some 5 ∧
    ¬ List.Chain' (fun a b => ∃ x y, parseLevel a = some x ∧ parseLevel b = some y ∧ x < y)
      ["5m", "05m"] := by
  refine ⟨by with_unfolding_all decide, by with_unfolding_all decide,
    by with_unfolding_all decide, ?_⟩
  intro hch
  obtain ⟨x, y, hx, hy, hlt⟩ := (List.chain'_cons.mp hch).1
  have hx5 : parseLevel "5m" = some 5 := by with_unfolding_all decide
  have hy5 : parseLevel "05m" = some 5 := by with_unfolding_all decide
  rw [hx5] at hx
  rw [hy5] at hy
  obtain rfl := Option.some.inj hx
  obtain rfl := Option.some.inj hy
  exact absurd hlt (by norm_num)

/-- C2 as amended: every published level list is sorted by the numeric
parse in the non-strict sense on adjacent entries that both parse — strict
ascent fails when two distinct level strings share a parsed value (the
counterexample), and entries that parse to `NaN` compare as ties. -/
theorem C2_levels_sorted_amended (records : List LayerRec) (m : String)
    (lvls : List String) (hml : (m, lvls) ∈ (buildCatalog records).DEM_LEVELS) :
    List.Chain' (fun a b => ∀ x y, parseLevel a = some x → parseLevel b = some y → x ≤ y)
      lvls := by
  rw [buildCatalog_DEM_LEVELS] at hml
  obtain ⟨d, _, hpair⟩ := List.mem_map.mp hml
  rw [Prod.mk.injEq] at hpair
  obtain ⟨rfl, rfl⟩ := hpair
  refine List.Chain'.imp ?_ (chain'_jsSort levelCmp levelCmp_skew _)
  intro a b hab x y hx hy
  unfold levelCmp at hab
  rw [hx, hy] at hab
  have hab' : (if x < y then (-1 : Int) else if y < x then 1 else 0) ≤ 0 := hab
  by_cases h1 : x < y
  · linarith
  · by_cases h2 : y < x
    · rw [if_neg h1, if_pos h2] at hab'
      exact absurd hab' (by norm_num)
    · linarith

/-- C2 amended witness: the non-strict chain at a concrete catalog. -/
theorem C2_levels_sorted_amended_witness :
    List.Chain' (fun a b => ∀ x y, parseLevel a = some x → parseLevel b = some y → x ≤ y)
      ["5m", "05m"] :=
  C2_levels_sorted_amended [exDem, exFlood "5m" "hand_2000", exFlood "05m" "hand_2000"]
    "alos_dem" ["5m", "05m"] (by with_unfolding_all decide)

/-- C4 counterexample: with the malformed level `"abc"` inserted before the
valid level `"1m"`, the published list is `["abc", "1m"]` — the malformed
entry sits before a valid one, refuting the NaN-last placement claim at
this input. -/
theorem C4_nan_last_cex :
    (buildCatalog [exDem, exFlood "abc" "hand_2000", exFlood "1m" "hand_2000"]).DEM_LEVELS
      = [("alos_dem", ["abc", "1m"])] ∧
    parseLevel "abc" = none ∧ parseLevel "1m" = some 1 ∧
    ¬ List.Pairwise (fun a b => parseLevel a = none → parseLevel b = none) ["abc", "1m"] := by
  refine ⟨by with_unfolding_all decide, by with_unfolding_all decide,
    by with_unfolding_all decide, ?_⟩
  intro hpw
  have h1 := (List.pairwise_cons.mp hpw).1 "1m" (List.mem_cons_self _ _)
    (by with_unfolding_all decide)
  have h2 : parseLevel "1m" = some 1 := by with_unfolding_all decide
  rw [h2] at h1
  exact Option.noConfusion h1

/-- C4 as amended: a malformed level string (numeric parse `NaN`) compares
as a tie with every string under the sort comparator (`NaN` is treated as
`+0` by `SortCompare`), so the stable sort leaves it in its insertion
position instead of moving it after the valid entries; in particular a
malformed level first in candidate order stays first. -/
theorem C4_malformed_ties_amended (x : String) (hx : parseLevel x = none) :
    (∀ y, levelCmp x y = 0 ∧ levelCmp y x = 0) ∧
    ∀ l, jsSort levelCmp (x :: l) = x :: jsSort levelCmp l := by
  refine ⟨levelCmp_ties_of_none hx, ?_⟩
  intro l
  exact jsSort_cons_of_ties levelCmp x (fun b => (levelCmp_ties_of_none hx b).1) l

/-- C4 amended witness: the malformed `"abc"` stays at the head when sorted
with the valid `"1m"`. -/
theorem C4_malformed_ties_amended_witness :
    jsSort levelCmp ["abc", "1m"] = "abc" :: jsSort levelCmp ["1m"] :=
  (C4_malformed_ties_amended "abc" (by with_unfolding_all decide)).2 ["1m"]

theorem addAll_nil_perm {xs ys : List String} (h : List.Perm xs ys) :
    List.Perm (addAll [] xs) (addAll [] ys) := by
  refine (List.perm_ext_iff_of_nodup (nodup_addAll _ _ List.nodup_nil)
    (nodup_addAll _ _ List.nodup_nil)).mpr ?_
  intro a
  rw [mem_addAll, mem_addAll]
  simp only [List.not_mem_nil, false_or]
  exact h.mem_iff

theorem catalog_level_mem (records : List LayerRec) (m lvl : String)
    (hm : m ∈ (buildCatalog records).DEM_LIST) :
    (∃ lvls, (buildCatalog records).DEM_LEVELS.lookup m = some lvls ∧ lvl ∈ lvls) ↔
      lvl ∈ floodsFor records m := by
  rw [buildCatalog_DEM_LIST] at hm
  rw [buildCatalog_DEM_LEVELS]
  constructor
  · rintro ⟨lvls, hsome, hmem⟩
    rw [lookup_map_self _ _ _ hm] at hsome
    obtain rfl := Option.some.inj hsome
    rw [jsSort_mem, mem_addAll] at hmem
    simpa using hmem
  · intro hmem
    refine ⟨_, lookup_map_self _ _ _ hm, ?_⟩
    rw [jsSort_mem, mem_addAll]
    simpa using hmem

theorem catalog_level_none (records : List LayerRec) (m : String)
    (hm : m ∉ (buildCatalog records).DEM_LIST) :
    (buildCatalog records).DEM_LEVELS.lookup m = none := by
  rw [buildCatalog_DEM_LIST] at hm
  rw [buildCatalog_DEM_LEVELS]
  exact lookup_map_eq_none _ _ _ hm

/-- C3 counterexample: swapping two flood records whose levels parse to the
same number changes the `DEM_LEVELS` sequence (the sort is stable on the
comparator's ties, so the insertion order leaks through) — refuting
permutation invariance of `levelsByModel` as a sequence. -/
theorem C3_perm_invariance_cex :
    List.Perm [exDem, exFlood "5m" "hand_2000", exFlood "05m" "hand_2000"]
      [exDem, exFlood "05m" "hand_2000", exFlood "5m" "hand_2000"] ∧
    (buildCatalog [exDem, exFlood "5m" "hand_2000", exFlood "05m" "hand_2000"]).DEM_LEVELS ≠
      (buildCatalog [exDem, exFlood "05m" "hand_2000", exFlood "5m" "hand_2000"]).DEM_LEVELS := by
  constructor
  · exact List.Perm.cons exDem
      (List.Perm.swap (exFlood "05m" "hand_2000") (exFlood "5m" "hand_2000") [])
  · with_unfolding_all decide

/-- C3 as amended: `modelList` is permutation-invariant, and each model's
level list is permutation-invariant as a set (the membership of the lookup
is preserved); the level sequence itself is not invariant when distinct
level strings tie under the numeric parse (see the counterexample). -/
theorem C3_perm_invariance_amended (l₁ l₂ : List LayerRec) (hp : List.Perm l₁ l₂) :
    (buildCatalog l₁).DEM_LIST = (buildCatalog l₂).DEM_LIST ∧
    ∀ m lvl,
      (∃ lvls, (buildCatalog l₁).DEM_LEVELS.lookup m = some lvls ∧ lvl ∈ lvls) ↔
      (∃ lvls, (buildCatalog l₂).DEM_LEVELS.lookup m = some lvls ∧ lvl ∈ lvls) := by
  have hnames : List.Perm (demNames l₁) (demNames l₂) := hp.filterMap _
  have hlist : (buildCatalog l₁).DEM_LIST = (buildCatalog l₂).DEM_LIST := by
    rw [buildCatalog_DEM_LIST, buildCatalog_DEM_LIST]
    have hperm : List.Perm (jsSort jsStrCmp (addAll [] (demNames l₁)))
        (jsSort jsStrCmp (addAll [] (demNames l₂))) :=
      ((jsSort_perm _ _).trans (addAll_nil_perm hnames)).trans (jsSort_perm _ _).symm
    exact List.eq_of_perm_of_sorted hperm
      (List.chain'_iff_pairwise.mp (chain'_jsSort jsStrCmp jsStrCmp_skew _))
      (List.chain'_iff_pairwise.mp (chain'_jsSort jsStrCmp jsStrCmp_skew _))
  refine ⟨hlist, ?_⟩
  intro m lvl
  by_cases hm : m ∈ (buildCatalog l₁).DEM_LIST
  · rw [catalog_level_mem l₁ m lvl hm, catalog_level_mem l₂ m lvl (hlist ▸ hm)]
    exact (hp.filterMap _).mem_iff
  · rw [catalog_level_none l₁ m hm, catalog_level_none l₂ m (hlist ▸ hm)]

/-- C3 amended witness: the invariants at the two permuted record lists of
the counterexample. -/
theorem C3_perm_invariance_amended_witness :
    (buildCatalog [exDem, exFlood "5m" "hand_2000", exFlood "05m" "hand_2000"]).DEM_LIST =
      (buildCatalog [exDem, exFlood "05m" "hand_2000", exFlood "5m" "hand_2000"]).DEM_LIST ∧
    ((∃ lvls, (buildCatalog [exDem, exFlood "5m" "hand_2000", exFlood "05m" "hand_2000"]).DEM_LEVELS.lookup "alos_dem" = some lvls ∧ "05m" ∈ lvls) ↔
     (∃ lvls, (buildCatalog [exDem, exFlood "05m" "hand_2000", exFlood "5m" "hand_2000"]).DEM_LEVELS.lookup "alos_dem" = some lvls ∧ "05m" ∈ lvls)) :=
  ⟨(C3_perm_invariance_amended _ _ (List.Perm.cons exDem
      (List.Perm.swap (exFlood "05m" "hand_2000") (exFlood "5m" "hand_2000") []))).1,
   (C3_perm_invariance_amended _ _ (List.Perm.cons exDem
      (List.Perm.swap (exFlood "05m" "hand_2000") (exFlood "5m" "hand_2000") []))).2
      "alos_dem" "05m"⟩

theorem occCount_append_braceFree {a : List Char} (ha : ∀ c ∈ a, c ≠ '\x7b')
    (s : List Char) : occCount zxyPat (a ++ s) = occCount zxyPat s := by
  induction a with
  | nil => rfl
  | cons c a' ih =>
    show (if zxyPat.isPrefixOf (c :: (a' ++ s)) = true then 1 else 0) +
        occCount zxyPat (a' ++ s) = occCount zxyPat s
    have hc : ('\x7b' == c) = false :=
      beq_eq_false_iff_ne.mpr fun h => ha c (List.mem_cons_self _ _) h.symm
    have hp : zxyPat.isPrefixOf (c :: (a' ++ s)) = false := by
      show ('\x7b' == c &&
        List.isPrefixOf ['z', '\x7d', '/', '\x7b', 'x', '\x7d', '/', '\x7b', 'y', '\x7d']
          (a' ++ s)) = false
      rw [hc, Bool.false_and]
    rw [hp]
    simp only [Bool.false_eq_true, if_false, Nat.zero_add]
    exact ih fun c' hc' => ha c' (List.mem_cons_of_mem _ hc')

/-- C5: `buildFloodUrl` without the pure-colour override joins model,
correction dataset, the literal `"flood"` token and level with underscores,
URL-encodes the composite as the path segment (whose characters can never
include `/`, `?` or `&`, so it stays a single segment), and appends the
URL-encoded colormap with `stretch_range=[min,max]`; at the concrete
example input the URL is exactly the expected string and the encoded
segment is literally `alos_dem_hand_2000_flood_5m`. -/
theorem C5_flood_url_shape (dem hand level cmap : String) (a b : Int) :
    buildFloodUrl dem hand level cmap (a, b) false =
      TC_BASE ++ "/singleband/flood_scenarios/" ++
        encodeURIComponent (dem ++ "_" ++ hand ++ "_flood_" ++ level) ++
        "/\x7bz\x7d/\x7bx\x7d/\x7by\x7d.png" ++ "?colormap=" ++ encodeURIComponent cmap ++
        "&stretch_range=[" ++ numToString a ++ "," ++ numToString b ++ "]" ∧
    ((encodeURIComponent (dem ++ "_" ++ hand ++ "_flood_" ++ level)).data.all
      fun c => c != '/' && c != '?' && c != '&') = true ∧
    buildFloodUrl "alos_dem" "hand_2000" "5m" "blues" (0, 5) false =
      "https://geohydroai.org/tc/singleband/flood_scenarios/alos_dem_hand_2000_flood_5m/\x7bz\x7d/\x7bx\x7d/\x7by\x7d.png?colormap=blues&stretch_range=[0,5]" ∧
    encodeURIComponent "alos_dem_hand_2000_flood_5m" = "alos_dem_hand_2000_flood_5m" := by
  refine ⟨by simp only [buildFloodUrl, Bool.false_eq_true, if_false], ?_,
    by decide, by decide⟩
  rw [List.all_eq_true]
  intro c hc
  have h := encode_single_segment c hc
  simp only [Bool.and_eq_true, bne_iff_ne, ne_eq]
  exact ⟨⟨h.1, h.2.1⟩, h.2.2⟩

/-- C6: with the pure-colour override the flood URL is independent of the
caller's colormap argument (so that argument never reaches the `colormap`
parameter), always carries the literal query chunk
`colormap=custom&colors=0000ff`, and still ends with the
`stretch_range=[min,max]` suffix. -/
theorem C6_pure_color_override (dem hand level cmap cmap2 : String) (a b : Int) :
    buildFloodUrl dem hand level cmap (a, b) true =
      buildFloodUrl dem hand level cmap2 (a, b) true ∧
    (∃ u v, (buildFloodUrl dem hand level cmap (a, b) true).data =
      u ++ ("colormap=custom&colors=0000ff" : String).data ++ v) ∧
    ∃ u, (buildFloodUrl dem hand level cmap (a, b) true).data =
      u ++ ("stretch_range=[" ++ numToString a ++ "," ++ numToString b ++ "]" : String).data := by
  have hurl : buildFloodUrl dem hand level cmap (a, b) true =
      TC_BASE ++ "/singleband/flood_scenarios/" ++
        encodeURIComponent (dem ++ "_" ++ hand ++ "_flood_" ++ level) ++
        "/\x7bz\x7d/\x7bx\x7d/\x7by\x7d.png" ++ "?colormap=custom&colors=0000ff&stretch_range=[" ++
        numToString a ++ "," ++ numToString b ++ "]" := by
    simp only [buildFloodUrl]
    rfl
  refine ⟨by simp only [buildFloodUrl]; rfl, ?_, ?_⟩
  · refine ⟨(TC_BASE ++ "/singleband/flood_scenarios/" ++
        encodeURIComponent (dem ++ "_" ++ hand ++ "_flood_" ++ level) ++
        "/\x7bz\x7d/\x7bx\x7d/\x7by\x7d.png").data ++ ("?" : String).data,
      ("&stretch_range=[" : String).data ++ (numToString a).data ++ ("," : String).data ++
        (numToString b).data ++ ("]" : String).data, ?_⟩
    rw [hurl]
    have hsplit : ("?colormap=custom&colors=0000ff&stretch_range=[" : String).data =
        ("?" : String).data ++ ("colormap=custom&colors=0000ff" : String).data ++
          ("&stretch_range=[" : String).data := by decide
    simp only [String.data_append, hsplit, List.append_assoc]
    rfl
  · refine ⟨(TC_BASE ++ "/singleband/flood_scenarios/" ++
        encodeURIComponent (dem ++ "_" ++ hand ++ "_flood_" ++ level) ++
        "/\x7bz\x7d/\x7bx\x7d/\x7by\x7d.png").data ++
        ("?colormap=custom&colors=0000ff&" : String).data, ?_⟩
    rw [hurl]
    have hsplit : ("?colormap=custom&colors=0000ff&stretch_range=[" : String).data =
        ("?colormap=custom&colors=0000ff&" : String).data ++
          ("stretch_range=[" : String).data := by decide
    simp only [String.data_append, hsplit, List.append_assoc]
    rfl

/-- C7: the terrain URL built by `buildDemUrl` contains exactly one
occurrence of the literal placeholder substring, for every model, colormap
and stretch range — the encoded components can never produce a `\x7b`
character, so the placeholder is neither URL-encoded nor duplicated. -/
theorem C7_tile_placeholder (dem cmap : String) (a b : Int) :
    occCount zxyPat (buildDemUrl dem cmap (a, b)).data = 1 := by
  have hmid : ("/\x7bz\x7d/\x7bx\x7d/\x7by\x7d.png?colormap=" : String).data =
      '/' :: (zxyPat ++ (".png?colormap=" : String).data) := by decide
  have hdata : (buildDemUrl dem cmap (a, b)).data =
      ((TC_BASE : String).data ++ ("/singleband/dem/" : String).data ++
        (encodeURIComponent dem).data ++ ['/'])
      ++ (zxyPat ++ ((".png?colormap=" : String).data ++ (encodeURIComponent cmap).data ++
          ("&stretch_range=[" : String).data ++ (numToString a).data ++ ("," : String).data ++
          (numToString b).data ++ ("]" : String).data)) := by
    show (TC_BASE ++ "/singleband/dem/" ++ encodeURIComponent dem ++
      "/\x7bz\x7d/\x7bx\x7d/\x7by\x7d.png?colormap=" ++ encodeURIComponent cmap ++
      "&stretch_range=[" ++ numToString a ++ "," ++ numToString b ++ "]").data = _
    simp only [String.data_append, hmid, List.append_assoc, List.cons_append,
      List.singleton_append]
    rfl
  rw [hdata, occCount_append_braceFree, occCount_pat_append]
  · intro c hc
    simp only [List.mem_append] at hc
    rcases hc with ((((((hc | hc) | hc) | hc) | hc) | hc) | hc)
    · exact (by decide : ∀ x ∈ (".png?colormap=" : String).data, x ≠ '\x7b') c hc
    · exact encode_no_brace c hc
    · exact (by decide : ∀ x ∈ ("&stretch_range=[" : String).data, x ≠ '\x7b') c hc
    · exact numToString_no_brace a c hc
    · exact (by decide : ∀ x ∈ ("," : String).data, x ≠ '\x7b') c hc
    · exact numToString_no_brace b c hc
    · exact (by decide : ∀ x ∈ ("]" : String).data, x ≠ '\x7b') c hc
  · intro c hc
    simp only [List.mem_append] at hc
    rcases hc with (((hc | hc) | hc) | hc)
    · exact (by decide : ∀ x ∈ (TC_BASE : String).data, x ≠ '\x7b') c hc
    · exact (by decide : ∀ x ∈ ("/singleband/dem/" : String).data, x ≠ '\x7b') c hc
    · exact encode_no_brace c hc
    · simp only [List.mem_singleton] at hc
      subst hc
      decide

end GeoAI
